import Mathlib

/-!
TF-IDF Index & Similarity Engine — verification development.

The repository's notebooks delegate the TF-IDF computation itself to an
external library (`sklearn.feature_extraction.text.TfidfVectorizer`,
`sklearn.metrics.pairwise.cosine_similarity`), whose implementation is not
part of the repository; the notebooks define the intended algorithm in their
accompanying text (TF(t,d) = count(t in d) / |tokens(d)|,
IDF(t) = ln(N / n_t), entry = TF·IDF).  The engine below is therefore
modelled from the specification of that algorithm.  The top-k retrieval code
(`tfidf_sim`, `tfidf_top5_indices` in `05-exercise-answers.ipynb`) does live
in the repository and is embedded directly from its source.
-/

/-- Tokens are normalized strings produced by the external tokenizer. -/
abbrev Token := String

/-- A document, as consumed by the engine: its ordered sequence of tokens
(raw text and metadata are irrelevant to the numeric computation). -/
abbrev Document := List Token

/-- A corpus: ordered sequence of documents; the order defines the document
indices used throughout. -/
abbrev Corpus := List Document

/-- Modelled from the spec: one step of the vocabulary scan — a token already
seen keeps the vocabulary unchanged, a new token is appended (receiving the
next index).  `TfidfVectorizer`'s vocabulary construction is library code
that is not in this repository. -/
def addTok (seen : List Token) (t : Token) : List Token :=
  if t ∈ seen then seen else seen ++ [t]

/-- Modelled from the spec: scan a token stream left to right, assigning
indices in first-occurrence order, starting from the tokens already seen. -/
def vocabAux (seen : List Token) : List Token → List Token
  | [] => seen
  | t :: ts => vocabAux (addTok seen t) ts

/-- Modelled from the spec: the Vocabulary — distinct tokens of the corpus in
first-occurrence order (documents in Corpus order, tokens in document
order). -/
def vocabulary (c : Corpus) : List Token :=
  vocabAux [] c.flatten

/-- Modelled from the spec: term frequency TF(t,d) = count(t in d) divided by
the total token count of d, and 0 for an empty document. -/
def tf (t : Token) (d : Document) : ℚ :=
  if d.length = 0 then 0 else (d.count t : ℚ) / (d.length : ℚ)

/-- Modelled from the spec: document frequency df(t) — the number of
documents containing t at least once. -/
def df (t : Token) (c : Corpus) : Nat :=
  (c.filter (fun d => decide (t ∈ d))).length

/-- Modelled from the spec: IDF(t) = ln(N / df(t)), natural logarithm, no
smoothing term. -/
noncomputable def idf (c : Corpus) (t : Token) : ℝ :=
  Real.log ((c.length : ℝ) / (df t c : ℝ))

/-- Modelled from the spec: entry (d, t) of the TfidfMatrix is
TF(t,d) · IDF(t). -/
noncomputable def tfidfEntry (c : Corpus) (d : Document) (t : Token) : ℝ :=
  (tf t d : ℝ) * idf c t

/-- Modelled from the spec: the TF-IDF row of one document — one entry per
vocabulary index, in vocabulary order. -/
noncomputable def tfidfRow (c : Corpus) (d : Document) : List ℝ :=
  (vocabulary c).map (fun t => tfidfEntry c d t)

/-- Modelled from the spec: the TfidfMatrix — one row per document, in
Corpus order. -/
noncomputable def tfidfMatrix (c : Corpus) : List (List ℝ) :=
  c.map (fun d => tfidfRow c d)

/-- Error taxonomy of the engine (only the build-time error is needed
here). -/
inductive BuildError
  | invalidInput
deriving DecidableEq

/-- Modelled from the spec: build(corpus) fails with InvalidInput if the
corpus is empty (N = 0), and otherwise produces the TfidfMatrix. -/
noncomputable def build (c : Corpus) : Except BuildError (List (List ℝ)) :=
  if c.isEmpty then Except.error BuildError.invalidInput
  else Except.ok (tfidfMatrix c)

/-- Dot product of two dense vectors; sparse-absent entries beyond the
shorter length are treated as 0. -/
noncomputable def dotv (a b : List ℝ) : ℝ :=
  (List.zipWith (fun x y => x * y) a b).sum

/-- Euclidean (L2) magnitude of a vector. -/
noncomputable def l2norm (a : List ℝ) : ℝ :=
  Real.sqrt (dotv a a)

/-- Modelled from the spec: cosineSimilarity(A, B) = dot(A,B)/(‖A‖·‖B‖),
defined as 0 by convention when either vector has zero magnitude.
`sklearn.metrics.pairwise.cosine_similarity` is library code that is not in
this repository. -/
noncomputable def cosineSimilarity (a b : List ℝ) : ℝ :=
  if l2norm a = 0 ∨ l2norm b = 0 then 0
  else dotv a b / (l2norm a * l2norm b)

/-!
Embedded retrieval code from `05-exercise-answers.ipynb`.

Source:
```
tfidf_sim = cosine_similarity(tfidf_df.iloc[0].values.reshape(1, -1),
                              tfidf_df.iloc[1:].values)
  (comment in source: Get indices of top 5 most similar documents
  (excluding the first document itself))
tfidf_top5_indices = tfidf_sim[0].argsort()[-5:][::-1]
covid_df.iloc[tfidf_top5_indices]['webTitle']
```
-/

/-- Embeds `tfidf_sim[0]`: the cosine similarities of document 0's row
against rows 1 .. N-1 of the matrix (the query row itself is dropped by the
`iloc[1:]` slice), so position j of the result scores document j + 1. -/
noncomputable def tfidf_sim (m : List (List ℝ)) : List ℝ :=
  (m.drop 1).map (fun r => cosineSimilarity (m.headD []) r)

/-- Stable insertion of index `i` into an ascending (by score) list of
indices: `i` goes after every index whose score is ≤ its own. -/
noncomputable def insertRank (l : List ℝ) (i : Nat) : List Nat → List Nat
  | [] => [i]
  | j :: rest =>
    if l.getD j 0 ≤ l.getD i 0 then j :: insertRank l i rest
    else i :: j :: rest

/-- Model of `numpy.ndarray.argsort` on a 1-d array: the indices of the array
sorted ascending by their values.  Ties keep the original index order (numpy
leaves tie order unspecified for its default sort; for the small arrays
exercised here its introsort falls back to a stable insertion sort, which
this model matches). -/
noncomputable def argsort (l : List ℝ) : List Nat :=
  (List.range l.length).foldl (fun acc i => insertRank l i acc) []

/-- Embeds `tfidf_sim[0].argsort()[-5:][::-1]`: python's `[-5:]` keeps the
last five entries (the whole list when it is shorter), `[::-1]` reverses. -/
noncomputable def tfidf_top5_indices (sims : List ℝ) : List Nat :=
  ((argsort sims).drop (sims.length - 5)).reverse

/-- Embeds `covid_df.iloc[tfidf_top5_indices]`: the corpus positions whose
documents the notebook displays as the five most similar to document 0. -/
noncomputable def top5_documents (c : Corpus) : List Nat :=
  tfidf_top5_indices (tfidf_sim (tfidfMatrix c))

/-- The three-document scenario of spec §8: tokens of
`["the cat sat", "the dog sat", "the cat ran"]` after stopword removal. -/
def scenarioCorpus : Corpus :=
  [["cat", "sat"], ["dog", "sat"], ["cat", "ran"]]

/-- A six-document corpus in which document 1 is identical to document 0
(hence the most similar to it) and the other four are pairwise-identical
strangers to document 0. -/
def cloneCorpus : Corpus :=
  [["a"], ["a"], ["b"], ["b"], ["c"], ["c"]]

/-- A two-document corpus whose second row has a nonzero entry. -/
def normCorpus : Corpus :=
  [["a"], ["a", "b"]]

/-! ## Vocabulary: first-occurrence order -/

theorem mem_addTok {seen : List Token} {t u : Token} :
    u ∈ addTok seen t ↔ u ∈ seen ∨ u = t := by
  unfold addTok
  split_ifs with h
  · constructor
    · exact Or.inl
    · rintro (hu | rfl)
      · exact hu
      · exact h
  · simp [List.mem_append]

theorem mem_vocabAux {u : Token} :
    ∀ (l seen : List Token), u ∈ vocabAux seen l ↔ u ∈ seen ∨ u ∈ l := by
  intro l
  induction l with
  | nil => intro seen; simp [vocabAux]
  | cons t ts ih =>
    intro seen
    show u ∈ vocabAux (addTok seen t) ts ↔ _
    rw [ih (addTok seen t), mem_addTok]
    simp [List.mem_cons, or_assoc, or_comm, or_left_comm]

theorem vocabAux_append :
    ∀ (l seen : List Token), ∃ rest, vocabAux seen l = seen ++ rest ∧
      ∀ x ∈ rest, x ∉ seen := by
  intro l
  induction l with
  | nil => intro seen; exact ⟨[], by simp [vocabAux], by simp⟩
  | cons t ts ih =>
    intro seen
    show ∃ rest, vocabAux (addTok seen t) ts = seen ++ rest ∧ _
    by_cases h : t ∈ seen
    · have : addTok seen t = seen := if_pos h
      rw [this]
      exact ih seen
    · have hadd : addTok seen t = seen ++ [t] := if_neg h
      obtain ⟨r, hr, hnot⟩ := ih (seen ++ [t])
      refine ⟨t :: r, ?_, ?_⟩
      · rw [hadd, hr, List.append_assoc, List.singleton_append]
      · intro x hx
        rcases List.mem_cons.1 hx with rfl | hx'
        · exact h
        · intro hxs
          exact hnot x hx' (List.mem_append.2 (Or.inl hxs))

theorem vocabAux_lt_of_mem_seen (l seen : List Token) (u v : Token)
    (hu : u ∈ seen) (hv : v ∉ seen) (hvl : v ∈ l) :
    (vocabAux seen l).indexOf u < (vocabAux seen l).indexOf v := by
  obtain ⟨rest, heq, hdisj⟩ := vocabAux_append l seen
  have hvmem : v ∈ vocabAux seen l := (mem_vocabAux l seen).mpr (Or.inr hvl)
  rw [heq, List.indexOf_append_of_mem hu, List.indexOf_append_of_not_mem hv]
  calc List.indexOf u seen < seen.length := List.indexOf_lt_length.2 hu
    _ ≤ seen.length + List.indexOf v rest := Nat.le_add_right _ _

theorem vocabAux_mono :
    ∀ (l seen : List Token) (u v : Token), u ∉ seen → v ∉ seen →
      u ∈ l → v ∈ l → l.indexOf u < l.indexOf v →
      (vocabAux seen l).indexOf u < (vocabAux seen l).indexOf v := by
  intro l
  induction l with
  | nil => intro seen u v _ _ hu _ _; exact absurd hu (List.not_mem_nil u)
  | cons t ts ih =>
    intro seen u v hus hvs hul hvl hlt
    by_cases hut : u = t
    · subst hut
      have hne : v ≠ u := by
        rintro rfl
        exact lt_irrefl _ hlt
      have hvts : v ∈ ts := by
        rcases List.mem_cons.1 hvl with h | h
        · exact absurd h hne
        · exact h
      have hadd : addTok seen u = seen ++ [u] := if_neg hus
      show (vocabAux (addTok seen u) ts).indexOf u < _
      apply vocabAux_lt_of_mem_seen
      · rw [hadd]
        exact List.mem_append.2 (Or.inr (List.mem_singleton.2 rfl))
      · rw [hadd]
        intro hmem
        rcases List.mem_append.1 hmem with h | h
        · exact hvs h
        · exact hne (List.mem_singleton.1 h)
      · exact hvts
    · by_cases hvt : v = t
      · subst hvt
        rw [List.indexOf_cons_self] at hlt
        exact absurd hlt (Nat.not_lt_zero _)
      · have hu' : u ∈ ts := by
          rcases List.mem_cons.1 hul with h | h
          · exact absurd h hut
          · exact h
        have hv' : v ∈ ts := by
          rcases List.mem_cons.1 hvl with h | h
          · exact absurd h hvt
          · exact h
        have hlt' : ts.indexOf u < ts.indexOf v := by
          rw [List.indexOf_cons_ne ts (Ne.symm hut),
            List.indexOf_cons_ne ts (Ne.symm hvt)] at hlt
          exact Nat.succ_lt_succ_iff.1 hlt
        have hus' : u ∉ addTok seen t := by
          intro hmem
          rcases mem_addTok.1 hmem with h | h
          · exact hus h
          · exact hut h
        have hvs' : v ∉ addTok seen t := by
          intro hmem
          rcases mem_addTok.1 hmem with h | h
          · exact hvs h
          · exact hvt h
        exact ih (addTok seen t) u v hus' hvs' hu' hv' hlt'

/-! ## Dot product, norm, cosine -/

theorem dotv_nil_right (a : List ℝ) : dotv a [] = 0 := by
  cases a <;> rfl

theorem dotv_cons (x y : ℝ) (a b : List ℝ) :
    dotv (x :: a) (y :: b) = x * y + dotv a b := rfl

theorem dotv_self_nonneg (a : List ℝ) : 0 ≤ dotv a a := by
  induction a with
  | nil => exact le_refl 0
  | cons x xs ih =>
    rw [dotv_cons]
    exact add_nonneg (mul_self_nonneg x) ih

theorem dotv_nonneg (a : List ℝ) :
    ∀ b : List ℝ, (∀ x ∈ a, 0 ≤ x) → (∀ x ∈ b, 0 ≤ x) → 0 ≤ dotv a b := by
  induction a with
  | nil => intro b _ _; exact le_refl 0
  | cons x xs ih =>
    intro b ha hb
    cases b with
    | nil => rw [dotv_nil_right]
    | cons y ys =>
      rw [dotv_cons]
      refine add_nonneg (mul_nonneg (ha x ?_) (hb y ?_)) (ih ys ?_ ?_)
      · exact List.mem_cons_self x xs
      · exact List.mem_cons_self y ys
      · exact fun z hz => ha z (List.mem_cons_of_mem x hz)
      · exact fun z hz => hb z (List.mem_cons_of_mem y hz)

theorem dotv_eq_sum (a : List ℝ) :
    ∀ b : List ℝ, dotv a b =
      ∑ i in Finset.range (min a.length b.length), a.getD i 0 * b.getD i 0 := by
  induction a with
  | nil => intro b; simp [dotv]
  | cons x xs ih =>
    intro b
    cases b with
    | nil => simp [dotv_nil_right]
    | cons y ys =>
      rw [dotv_cons, ih ys, List.length_cons, List.length_cons,
        Nat.succ_min_succ, Finset.sum_range_succ']
      simp [add_comm]

theorem dotv_self_eq_sum (a : List ℝ) :
    dotv a a = ∑ i in Finset.range a.length, a.getD i 0 ^ 2 := by
  rw [dotv_eq_sum, Nat.min_self]
  exact Finset.sum_congr rfl fun i _ => (sq (a.getD i 0)).symm

theorem sq_dotv_le (a b : List ℝ) : dotv a b ^ 2 ≤ dotv a a * dotv b b := by
  have key := Finset.sum_mul_sq_le_sq_mul_sq
    (Finset.range (min a.length b.length)) (fun i => a.getD i 0) (fun i => b.getD i 0)
  have hsub1 : (∑ i in Finset.range (min a.length b.length), a.getD i 0 ^ 2) ≤
      ∑ i in Finset.range a.length, a.getD i 0 ^ 2 :=
    Finset.sum_le_sum_of_subset_of_nonneg
      (Finset.range_subset.2 (Nat.min_le_left _ _)) (fun i _ _ => sq_nonneg _)
  have hsub2 : (∑ i in Finset.range (min a.length b.length), b.getD i 0 ^ 2) ≤
      ∑ i in Finset.range b.length, b.getD i 0 ^ 2 :=
    Finset.sum_le_sum_of_subset_of_nonneg
      (Finset.range_subset.2 (Nat.min_le_right _ _)) (fun i _ _ => sq_nonneg _)
  calc dotv a b ^ 2
      = (∑ i in Finset.range (min a.length b.length), a.getD i 0 * b.getD i 0) ^ 2 := by
        rw [dotv_eq_sum]
    _ ≤ (∑ i in Finset.range (min a.length b.length), a.getD i 0 ^ 2) *
        ∑ i in Finset.range (min a.length b.length), b.getD i 0 ^ 2 := key
    _ ≤ (∑ i in Finset.range a.length, a.getD i 0 ^ 2) *
        ∑ i in Finset.range b.length, b.getD i 0 ^ 2 := by
        refine mul_le_mul hsub1 hsub2 (Finset.sum_nonneg fun i _ => sq_nonneg _) ?_
        exact le_trans (Finset.sum_nonneg fun i _ => sq_nonneg _) hsub1
    _ = dotv a a * dotv b b := by rw [dotv_self_eq_sum, dotv_self_eq_sum]

theorem l2norm_nonneg (a : List ℝ) : 0 ≤ l2norm a :=
  Real.sqrt_nonneg _

theorem dotv_le_mul_l2norm (a b : List ℝ)
    (ha : ∀ x ∈ a, 0 ≤ x) (hb : ∀ x ∈ b, 0 ≤ x) :
    dotv a b ≤ l2norm a * l2norm b := by
  have h1 : dotv a b = Real.sqrt (dotv a b ^ 2) :=
    (Real.sqrt_sq (dotv_nonneg a b ha hb)).symm
  rw [h1]
  unfold l2norm
  rw [← Real.sqrt_mul (dotv_self_nonneg a)]
  exact Real.sqrt_le_sqrt (sq_dotv_le a b)

/-! ## Nonnegativity and degenerate cases -/

theorem tf_nonneg (t : Token) (d : Document) : 0 ≤ tf t d := by
  unfold tf
  split_ifs with h
  · exact le_refl 0
  · exact div_nonneg (by positivity) (by positivity)

theorem df_le_length (t : Token) (c : Corpus) : df t c ≤ c.length :=
  List.length_filter_le _ _

theorem df_pos_of_mem {t : Token} {c : Corpus} (h : ∃ d ∈ c, t ∈ d) :
    0 < df t c := by
  obtain ⟨d, hd, ht⟩ := h
  have : d ∈ c.filter (fun d => decide (t ∈ d)) :=
    List.mem_filter.2 ⟨hd, by simpa using ht⟩
  exact List.length_pos_of_mem this

theorem idf_nonneg_of_mem (c : Corpus) (t : Token) (h : ∃ d ∈ c, t ∈ d) :
    0 ≤ idf c t := by
  unfold idf
  apply Real.log_nonneg
  have h1 : (0 : ℝ) < df t c := by exact_mod_cast df_pos_of_mem h
  rw [one_le_div h1]
  exact_mod_cast df_le_length t c

theorem mem_flatten_of_mem_vocabulary {c : Corpus} {t : Token}
    (h : t ∈ vocabulary c) : t ∈ c.flatten := by
  rcases (mem_vocabAux c.flatten []).1 h with h' | h'
  · cases h'
  · exact h'

theorem tfidfRow_nonneg (c : Corpus) (d : Document) :
    ∀ x ∈ tfidfRow c d, 0 ≤ x := by
  intro x hx
  obtain ⟨t, ht, rfl⟩ := List.mem_map.1 hx
  unfold tfidfEntry
  apply mul_nonneg
  · exact_mod_cast tf_nonneg t d
  · exact idf_nonneg_of_mem c t
      (List.mem_flatten.1 (mem_flatten_of_mem_vocabulary ht))

theorem matrixRow_nonneg (c : Corpus) (i : Nat) :
    ∀ x ∈ (tfidfMatrix c).getD i [], 0 ≤ x := by
  by_cases h : i < c.length
  · have hlen : i < (tfidfMatrix c).length := by simpa [tfidfMatrix] using h
    rw [List.getD_eq_getElem _ _ hlen]
    unfold tfidfMatrix
    rw [List.getElem_map]
    exact tfidfRow_nonneg c _
  · intro x hx
    rw [List.getD_eq_default] at hx
    · exact absurd hx (List.not_mem_nil x)
    · simpa [tfidfMatrix] using Nat.le_of_not_lt h

theorem cosineSimilarity_unit (a b : List ℝ)
    (ha : ∀ x ∈ a, 0 ≤ x) (hb : ∀ x ∈ b, 0 ≤ x) :
    0 ≤ cosineSimilarity a b ∧ cosineSimilarity a b ≤ 1 := by
  unfold cosineSimilarity
  split_ifs with h
  · norm_num
  · push_neg at h
    have hp1 : 0 < l2norm a := lt_of_le_of_ne (l2norm_nonneg a) (Ne.symm h.1)
    have hp2 : 0 < l2norm b := lt_of_le_of_ne (l2norm_nonneg b) (Ne.symm h.2)
    constructor
    · exact div_nonneg (dotv_nonneg a b ha hb) (le_of_lt (mul_pos hp1 hp2))
    · rw [div_le_one (mul_pos hp1 hp2)]
      exact dotv_le_mul_l2norm a b ha hb

theorem tfidfRow_nil_entries (c : Corpus) : ∀ x ∈ tfidfRow c [], x = 0 := by
  intro x hx
  obtain ⟨t, ht, rfl⟩ := List.mem_map.1 hx
  unfold tfidfEntry
  rw [show tf t [] = 0 from rfl]
  norm_num

theorem dotv_self_eq_zero (a : List ℝ) (h : ∀ x ∈ a, x = 0) :
    dotv a a = 0 := by
  induction a with
  | nil => rfl
  | cons y ys ih =>
    rw [dotv_cons, h y (List.mem_cons_self y ys),
      ih (fun z hz => h z (List.mem_cons_of_mem y hz))]
    norm_num

theorem l2norm_row_nil (c : Corpus) : l2norm (tfidfRow c []) = 0 := by
  unfold l2norm
  rw [dotv_self_eq_zero _ (tfidfRow_nil_entries c), Real.sqrt_zero]

theorem dotv_self_pos : ∀ a : List ℝ, (∃ x ∈ a, x ≠ 0) → 0 < dotv a a := by
  intro a
  induction a with
  | nil => rintro ⟨x, hx, -⟩; cases hx
  | cons y ys ih =>
    rintro ⟨x, hx, hne⟩
    rw [dotv_cons]
    rcases List.mem_cons.1 hx with rfl | hx'
    · exact add_pos_of_pos_of_nonneg (mul_self_pos.2 hne) (dotv_self_nonneg ys)
    · exact add_pos_of_nonneg_of_pos (mul_self_nonneg y) (ih ⟨x, hx', hne⟩)

theorem l2norm_pos (a : List ℝ) (h : ∃ x ∈ a, x ≠ 0) : 0 < l2norm a :=
  Real.sqrt_pos.2 (dotv_self_pos a h)

/-! ## Claim theorems -/

/-- C1: the IDF weight used by the build equals ln(N / df(t)) with no
smoothing term; a term occurring in all N documents gets IDF = 0 and
contributes 0 to every row's entry regardless of its term frequency. -/
theorem idf_unsmoothed_universal_term_zero (c : Corpus) (t : Token) :
    (0 < df t c → idf c t = Real.log ((c.length : ℝ) / (df t c : ℝ)))
    ∧ (0 < c.length → df t c = c.length →
        idf c t = 0 ∧ ∀ d ∈ c, tfidfEntry c d t = 0) := by
  constructor
  · intro _
    rfl
  · intro hN hdf
    have hidf : idf c t = 0 := by
      unfold idf
      rw [hdf, div_self (Nat.cast_ne_zero.2 (Nat.pos_iff_ne_zero.1 hN)),
        Real.log_one]
    refine ⟨hidf, fun d _ => ?_⟩
    unfold tfidfEntry
    rw [hidf, mul_zero]

theorem idf_unsmoothed_universal_term_zero_app :
    0 < df "a" [["a"], ["a"]] ∧ df "a" [["a"], ["a"]] = 2 ∧
    idf [["a"], ["a"]] "a" = 0 ∧ tfidfEntry [["a"], ["a"]] ["a"] "a" = 0 := by
  refine ⟨by decide, by decide, ?_, ?_⟩
  · exact ((idf_unsmoothed_universal_term_zero [["a"], ["a"]] "a").2
      (by decide) (by decide)).1
  · exact ((idf_unsmoothed_universal_term_zero [["a"], ["a"]] "a").2
      (by decide) (by decide)).2 ["a"] (by decide)

/-- C2: TF(t,d) is count(t in d) divided by the token count of d (0 for a
zero-token document), and entry (i,j) of the TfidfMatrix is TF · IDF. -/
theorem tf_normalization_matrix_entry (c : Corpus) (i j : Nat)
    (hi : i < c.length) (hj : j < (vocabulary c).length) :
    (∀ (t : Token) (d : Document),
        (d ≠ [] → tf t d = (d.count t : ℚ) / (d.length : ℚ)) ∧ tf t [] = 0)
    ∧ ((tfidfMatrix c).getD i []).getD j 0
        = (tf ((vocabulary c).getD j "") (c.getD i []) : ℝ)
          * idf c ((vocabulary c).getD j "") := by
  constructor
  · intro t d
    constructor
    · intro hd
      unfold tf
      rw [if_neg (by simpa [List.length_eq_zero] using hd)]
    · rfl
  · have hmi : i < (tfidfMatrix c).length := by simpa [tfidfMatrix] using hi
    rw [List.getD_eq_getElem _ _ hmi]
    have hstep : (tfidfMatrix c)[i] = tfidfRow c (c.getD i []) := by
      unfold tfidfMatrix
      rw [List.getElem_map, List.getD_eq_getElem _ _ hi]
    rw [hstep]
    have hrj : j < (tfidfRow c (c.getD i [])).length := by
      simpa [tfidfRow] using hj
    rw [List.getD_eq_getElem _ _ hrj]
    unfold tfidfRow
    rw [List.getElem_map, List.getD_eq_getElem _ _ hj]
    rfl

theorem tf_normalization_matrix_entry_app :
    0 < [["a"], ["a", "b"]].length ∧ 0 < (vocabulary [["a"], ["a", "b"]]).length ∧
    ((tfidfMatrix [["a"], ["a", "b"]]).getD 0 []).getD 0 0
      = (tf ((vocabulary [["a"], ["a", "b"]]).getD 0 "")
          ([["a"], ["a", "b"]].getD 0 []) : ℝ)
        * idf [["a"], ["a", "b"]] ((vocabulary [["a"], ["a", "b"]]).getD 0 "") := by
  refine ⟨by decide, by decide, ?_⟩
  exact (tf_normalization_matrix_entry [["a"], ["a", "b"]] 0 0
    (by decide) (by decide)).2

/-- C5: vocabulary indices are assigned in first-occurrence order — token u
gets a smaller index than token v iff u's first occurrence (documents in
Corpus order, tokens in document order) precedes v's. -/
theorem vocabulary_first_occurrence_order (c : Corpus) (u v : Token)
    (hu : u ∈ c.flatten) (hv : v ∈ c.flatten) :
    (vocabulary c).indexOf u < (vocabulary c).indexOf v ↔
      c.flatten.indexOf u < c.flatten.indexOf v := by
  unfold vocabulary
  constructor
  · intro h
    rcases lt_trichotomy (c.flatten.indexOf u) (c.flatten.indexOf v)
      with h' | h' | h'
    · exact h'
    · exfalso
      have huv : u = v := (List.indexOf_inj hu hv).1 h'
      subst huv
      exact lt_irrefl _ h
    · exfalso
      have := vocabAux_mono c.flatten [] v u (List.not_mem_nil v)
        (List.not_mem_nil u) hv hu h'
      exact lt_asymm h this
  · intro h
    exact vocabAux_mono c.flatten [] u v (List.not_mem_nil u)
      (List.not_mem_nil v) hu hv h

theorem vocabulary_first_occurrence_order_app :
    "a" ∈ ([["a", "b"]] : Corpus).flatten ∧
    (vocabulary [["a", "b"]]).indexOf "a" < (vocabulary [["a", "b"]]).indexOf "b" := by
  refine ⟨by decide, ?_⟩
  exact (vocabulary_first_occurrence_order [["a", "b"]] "a" "b"
    (by decide) (by decide)).mpr (by decide)

/-- C6: when either input has zero magnitude, cosineSimilarity returns
exactly 0 (no NaN, no error); in particular the all-zero row of a zero-token
document has similarity 0 with every vector. -/
theorem cosine_zero_magnitude :
    (∀ a b : List ℝ, l2norm a = 0 ∨ l2norm b = 0 → cosineSimilarity a b = 0)
    ∧ ∀ (c : Corpus) (b : List ℝ), cosineSimilarity (tfidfRow c []) b = 0 := by
  have base : ∀ a b : List ℝ, l2norm a = 0 ∨ l2norm b = 0 →
      cosineSimilarity a b = 0 := by
    intro a b h
    unfold cosineSimilarity
    exact if_pos h
  exact ⟨base, fun c b => base _ b (Or.inl (l2norm_row_nil c))⟩

theorem cosine_zero_magnitude_app :
    l2norm [(0 : ℝ)] = 0 ∧ cosineSimilarity [(0 : ℝ)] [(1 : ℝ)] = 0 := by
  have h0 : l2norm [(0 : ℝ)] = 0 := by
    unfold l2norm
    rw [dotv_self_eq_zero _ (fun x hx => List.mem_singleton.1 hx),
      Real.sqrt_zero]
  exact ⟨h0, cosine_zero_magnitude.1 [(0 : ℝ)] [(1 : ℝ)] (Or.inl h0)⟩

/-- C7: build fails with InvalidInput exactly when the corpus is empty, and
succeeds fully (producing the TfidfMatrix) on every nonempty corpus. -/
theorem build_invalid_iff_empty (c : Corpus) :
    (build c = Except.error BuildError.invalidInput ↔ c = [])
    ∧ (c ≠ [] → build c = Except.ok (tfidfMatrix c)) := by
  cases c with
  | nil =>
    constructor
    · simp [build]
    · intro h
      exact absurd rfl h
  | cons d ds =>
    constructor
    · simp [build]
    · intro _
      simp [build]

theorem build_invalid_iff_empty_app :
    [["a"]] ≠ ([] : Corpus) ∧
    build [["a"]] = Except.ok (tfidfMatrix [["a"]]) :=
  ⟨by decide, (build_invalid_iff_empty [["a"]]).2 (by decide)⟩

/-- C8: building the index twice from the same corpus yields identical
matrices, entry for entry; in this pure-function embedding both runs denote
the same value, so determinism holds definitionally. -/
theorem build_idempotent (c : Corpus) :
    build c = build c ∧ ∀ i j : Nat,
      ((tfidfMatrix c).getD i []).getD j 0
        = ((tfidfMatrix c).getD i []).getD j 0 :=
  ⟨rfl, fun _ _ => rfl⟩

/-- C10: the cosine similarity of any two rows of the built TF-IDF matrix
lies in [0, 1] — never negative — because every matrix entry is
nonnegative. -/
theorem cosine_rows_unit_interval (c : Corpus) (i j : Nat) :
    0 ≤ cosineSimilarity ((tfidfMatrix c).getD i []) ((tfidfMatrix c).getD j [])
    ∧ cosineSimilarity ((tfidfMatrix c).getD i [])
        ((tfidfMatrix c).getD j []) ≤ 1 :=
  cosineSimilarity_unit _ _ (matrixRow_nonneg c i) (matrixRow_nonneg c j)

/-! ## Concrete evaluations -/

theorem cosine_eq_zero_of_dot_zero (a b : List ℝ) (h : dotv a b = 0) :
    cosineSimilarity a b = 0 := by
  unfold cosineSimilarity
  split_ifs
  · rfl
  · rw [h, zero_div]

theorem cosineSimilarity_self (a : List ℝ) (h : 0 < dotv a a) :
    cosineSimilarity a a = 1 := by
  unfold cosineSimilarity
  rw [if_neg]
  · unfold l2norm
    rw [Real.mul_self_sqrt h.le]
    exact div_self (ne_of_gt h)
  · unfold l2norm
    push_neg
    constructor <;> exact (Real.sqrt_ne_zero'.2 h)

theorem normCorpus_row1 :
    (tfidfMatrix normCorpus).getD 1 [] = [0, Real.log 2 / 2] := by
  have hv : vocabulary normCorpus = ["a", "b"] := by decide
  have h1 : (tfidfMatrix normCorpus).getD 1 [] =
      tfidfRow normCorpus ["a", "b"] := rfl
  rw [h1]
  unfold tfidfRow tfidfEntry
  rw [hv]
  simp only [List.map_cons, List.map_nil]
  have hia : idf normCorpus "a" = 0 := by
    unfold idf
    rw [show df "a" normCorpus = 2 from by decide]
    norm_num [normCorpus]
  have hib : idf normCorpus "b" = Real.log 2 := by
    unfold idf
    rw [show df "b" normCorpus = 1 from by decide]
    norm_num [normCorpus]
  rw [hia, hib, show tf "a" ["a", "b"] = 1/2 from by simp [tf, List.count_cons],
    show tf "b" ["a", "b"] = 1/2 from by simp [tf, List.count_cons]]
  norm_num
  ring

/-- C9 counterexample: row 1 of the matrix built from normCorpus has a
nonzero entry, yet its Euclidean norm is not 1 (it is ln(2)/2 < 1): the
build does not L2-normalize rows. -/
theorem row_norm_not_one :
    (∃ x ∈ (tfidfMatrix normCorpus).getD 1 [], x ≠ 0)
    ∧ l2norm ((tfidfMatrix normCorpus).getD 1 []) ≠ 1 := by
  have hlog : 0 < Real.log 2 := Real.log_pos (by norm_num)
  rw [normCorpus_row1]
  constructor
  · exact ⟨Real.log 2 / 2, by simp, by positivity⟩
  · have hnorm : l2norm [0, Real.log 2 / 2] = Real.log 2 / 2 := by
      have h1 : l2norm [0, Real.log 2 / 2]
          = Real.sqrt (Real.log 2 / 2 * (Real.log 2 / 2)) := by
        unfold l2norm dotv
        norm_num
      rw [h1, Real.sqrt_mul_self (by positivity : (0:ℝ) ≤ Real.log 2 / 2)]
    rw [hnorm]
    have hle : Real.log 2 ≤ 1 := by
      have := Real.log_le_sub_one_of_pos (by norm_num : (0:ℝ) < 2)
      linarith
    intro hcontra
    linarith

/-- C9 amended: rows of the TfidfMatrix are not L2-normalized; instead,
every row containing a nonzero entry has positive Euclidean norm, and the
cosine similarity of two such rows equals their dot product divided by the
product of their norms. -/
theorem cosine_eq_dot_div_norms (c : Corpus) (i j : Nat)
    (hi : ∃ x ∈ (tfidfMatrix c).getD i [], x ≠ 0)
    (hj : ∃ x ∈ (tfidfMatrix c).getD j [], x ≠ 0) :
    0 < l2norm ((tfidfMatrix c).getD i []) ∧
    cosineSimilarity ((tfidfMatrix c).getD i []) ((tfidfMatrix c).getD j [])
      = dotv ((tfidfMatrix c).getD i []) ((tfidfMatrix c).getD j [])
        / (l2norm ((tfidfMatrix c).getD i [])
            * l2norm ((tfidfMatrix c).getD j [])) := by
  have hpi := l2norm_pos _ hi
  have hpj := l2norm_pos _ hj
  refine ⟨hpi, ?_⟩
  have hcond : ¬(l2norm ((tfidfMatrix c).getD i []) = 0
      ∨ l2norm ((tfidfMatrix c).getD j []) = 0) := by
    push_neg
    exact ⟨ne_of_gt hpi, ne_of_gt hpj⟩
  unfold cosineSimilarity
  rw [if_neg hcond]

theorem cosine_eq_dot_div_norms_app :
    (∃ x ∈ (tfidfMatrix normCorpus).getD 1 [], x ≠ 0)
    ∧ 0 < l2norm ((tfidfMatrix normCorpus).getD 1 []) := by
  have hlog : 0 < Real.log 2 := Real.log_pos (by norm_num)
  have hex : ∃ x ∈ (tfidfMatrix normCorpus).getD 1 [], x ≠ 0 := by
    rw [normCorpus_row1]
    exact ⟨Real.log 2 / 2, by simp, by positivity⟩
  exact ⟨hex, (cosine_eq_dot_div_norms normCorpus 1 1 hex hex).1⟩

theorem log3_pos : (0 : ℝ) < Real.log 3 :=
  Real.log_pos (by norm_num)

theorem clone_idf (t : Token) (h : df t cloneCorpus = 2) :
    idf cloneCorpus t = Real.log 3 := by
  unfold idf
  rw [h]
  norm_num [cloneCorpus]

theorem clone_rowA : tfidfRow cloneCorpus ["a"] = [Real.log 3, 0, 0] := by
  have hv : vocabulary cloneCorpus = ["a", "b", "c"] := by decide
  unfold tfidfRow tfidfEntry
  rw [hv]
  simp only [List.map_cons, List.map_nil]
  rw [clone_idf "a" (by decide), clone_idf "b" (by decide),
    clone_idf "c" (by decide),
    show tf "a" ["a"] = 1 from by simp [tf, List.count_cons],
    show tf "b" ["a"] = 0 from by simp [tf, List.count_cons],
    show tf "c" ["a"] = 0 from by simp [tf, List.count_cons]]
  norm_num

theorem clone_rowB : tfidfRow cloneCorpus ["b"] = [0, Real.log 3, 0] := by
  have hv : vocabulary cloneCorpus = ["a", "b", "c"] := by decide
  unfold tfidfRow tfidfEntry
  rw [hv]
  simp only [List.map_cons, List.map_nil]
  rw [clone_idf "a" (by decide), clone_idf "b" (by decide),
    clone_idf "c" (by decide),
    show tf "a" ["b"] = 0 from by simp [tf, List.count_cons],
    show tf "b" ["b"] = 1 from by simp [tf, List.count_cons],
    show tf "c" ["b"] = 0 from by simp [tf, List.count_cons]]
  norm_num

theorem clone_rowC : tfidfRow cloneCorpus ["c"] = [0, 0, Real.log 3] := by
  have hv : vocabulary cloneCorpus = ["a", "b", "c"] := by decide
  unfold tfidfRow tfidfEntry
  rw [hv]
  simp only [List.map_cons, List.map_nil]
  rw [clone_idf "a" (by decide), clone_idf "b" (by decide),
    clone_idf "c" (by decide),
    show tf "a" ["c"] = 0 from by simp [tf, List.count_cons],
    show tf "b" ["c"] = 0 from by simp [tf, List.count_cons],
    show tf "c" ["c"] = 1 from by simp [tf, List.count_cons]]
  norm_num

theorem clone_matrix :
    tfidfMatrix cloneCorpus =
      [[Real.log 3, 0, 0], [Real.log 3, 0, 0], [0, Real.log 3, 0],
       [0, Real.log 3, 0], [0, 0, Real.log 3], [0, 0, Real.log 3]] := by
  have h : tfidfMatrix cloneCorpus =
      [tfidfRow cloneCorpus ["a"], tfidfRow cloneCorpus ["a"],
       tfidfRow cloneCorpus ["b"], tfidfRow cloneCorpus ["b"],
       tfidfRow cloneCorpus ["c"], tfidfRow cloneCorpus ["c"]] := rfl
  rw [h, clone_rowA, clone_rowB, clone_rowC]

theorem clone_sims :
    tfidf_sim (tfidfMatrix cloneCorpus) = [1, 0, 0, 0, 0] := by
  rw [clone_matrix]
  have hApos : 0 < dotv [Real.log 3, 0, 0] [Real.log 3, 0, 0] :=
    dotv_self_pos _ ⟨Real.log 3, by simp, ne_of_gt log3_pos⟩
  show [cosineSimilarity [Real.log 3, 0, 0] [Real.log 3, 0, 0],
        cosineSimilarity [Real.log 3, 0, 0] [0, Real.log 3, 0],
        cosineSimilarity [Real.log 3, 0, 0] [0, Real.log 3, 0],
        cosineSimilarity [Real.log 3, 0, 0] [0, 0, Real.log 3],
        cosineSimilarity [Real.log 3, 0, 0] [0, 0, Real.log 3]]
      = [1, 0, 0, 0, 0]
  rw [cosineSimilarity_self _ hApos,
    cosine_eq_zero_of_dot_zero _ _ (by unfold dotv; norm_num),
    cosine_eq_zero_of_dot_zero _ _ (by unfold dotv; norm_num)]

theorem clone_argsort : argsort [(1 : ℝ), 0, 0, 0, 0] = [1, 2, 3, 4, 0] := by
  unfold argsort
  rw [show List.range [(1 : ℝ), 0, 0, 0, 0].length = [0, 1, 2, 3, 4] from rfl]
  simp only [List.foldl_cons, List.foldl_nil]
  norm_num [insertRank]

/-- C3 (code bug): evaluating the notebook's retrieval code on cloneCorpus,
where document 1 is identical to the query document 0, the displayed corpus
positions are [0, 4, 3, 2, 1] — the query document 0 itself heads the
output, because the argsort result indexes the corpus directly although
position j of the similarity array scores document j + 1. -/
theorem top5_includes_query_document :
    top5_documents cloneCorpus = [0, 4, 3, 2, 1]
    ∧ 0 ∈ top5_documents cloneCorpus := by
  have h : top5_documents cloneCorpus = [0, 4, 3, 2, 1] := by
    unfold top5_documents
    rw [clone_sims]
    show ((argsort [(1 : ℝ), 0, 0, 0, 0]).drop 0).reverse = _
    rw [clone_argsort]
    rfl
  exact ⟨h, by rw [h]; simp⟩

theorem scen_idf_half (t : Token) (h : df t scenarioCorpus = 2) :
    idf scenarioCorpus t = Real.log (3 / 2) := by
  unfold idf
  rw [h]
  norm_num [scenarioCorpus]

theorem scen_idf_full (t : Token) (h : df t scenarioCorpus = 1) :
    idf scenarioCorpus t = Real.log 3 := by
  unfold idf
  rw [h]
  norm_num [scenarioCorpus]

theorem scen_row0 :
    tfidfRow scenarioCorpus ["cat", "sat"]
      = [Real.log (3 / 2) / 2, Real.log (3 / 2) / 2, 0, 0] := by
  have hv : vocabulary scenarioCorpus = ["cat", "sat", "dog", "ran"] := by decide
  unfold tfidfRow tfidfEntry
  rw [hv]
  simp only [List.map_cons, List.map_nil]
  rw [scen_idf_half "cat" (by decide), scen_idf_half "sat" (by decide),
    scen_idf_full "dog" (by decide), scen_idf_full "ran" (by decide),
    show tf "cat" ["cat", "sat"] = 1/2 from by simp [tf, List.count_cons],
    show tf "sat" ["cat", "sat"] = 1/2 from by simp [tf, List.count_cons],
    show tf "dog" ["cat", "sat"] = 0 from by simp [tf, List.count_cons],
    show tf "ran" ["cat", "sat"] = 0 from by simp [tf, List.count_cons]]
  push_cast
  simp only [List.cons.injEq, and_true]
  refine ⟨by ring, by ring, by norm_num, by norm_num⟩

theorem scen_row1 :
    tfidfRow scenarioCorpus ["dog", "sat"]
      = [0, Real.log (3 / 2) / 2, Real.log 3 / 2, 0] := by
  have hv : vocabulary scenarioCorpus = ["cat", "sat", "dog", "ran"] := by decide
  unfold tfidfRow tfidfEntry
  rw [hv]
  simp only [List.map_cons, List.map_nil]
  rw [scen_idf_half "cat" (by decide), scen_idf_half "sat" (by decide),
    scen_idf_full "dog" (by decide), scen_idf_full "ran" (by decide),
    show tf "cat" ["dog", "sat"] = 0 from by simp [tf, List.count_cons],
    show tf "sat" ["dog", "sat"] = 1/2 from by simp [tf, List.count_cons],
    show tf "dog" ["dog", "sat"] = 1/2 from by simp [tf, List.count_cons],
    show tf "ran" ["dog", "sat"] = 0 from by simp [tf, List.count_cons]]
  push_cast
  simp only [List.cons.injEq, and_true]
  refine ⟨by norm_num, by ring, by ring, by norm_num⟩

theorem scen_row2 :
    tfidfRow scenarioCorpus ["cat", "ran"]
      = [Real.log (3 / 2) / 2, 0, 0, Real.log 3 / 2] := by
  have hv : vocabulary scenarioCorpus = ["cat", "sat", "dog", "ran"] := by decide
  unfold tfidfRow tfidfEntry
  rw [hv]
  simp only [List.map_cons, List.map_nil]
  rw [scen_idf_half "cat" (by decide), scen_idf_half "sat" (by decide),
    scen_idf_full "dog" (by decide), scen_idf_full "ran" (by decide),
    show tf "cat" ["cat", "ran"] = 1/2 from by simp [tf, List.count_cons],
    show tf "sat" ["cat", "ran"] = 0 from by simp [tf, List.count_cons],
    show tf "dog" ["cat", "ran"] = 0 from by simp [tf, List.count_cons],
    show tf "ran" ["cat", "ran"] = 1/2 from by simp [tf, List.count_cons]]
  push_cast
  simp only [List.cons.injEq, and_true]
  refine ⟨by ring, by norm_num, by norm_num, by ring⟩

theorem scen_matrix :
    tfidfMatrix scenarioCorpus =
      [[Real.log (3 / 2) / 2, Real.log (3 / 2) / 2, 0, 0],
       [0, Real.log (3 / 2) / 2, Real.log 3 / 2, 0],
       [Real.log (3 / 2) / 2, 0, 0, Real.log 3 / 2]] := by
  have h : tfidfMatrix scenarioCorpus =
      [tfidfRow scenarioCorpus ["cat", "sat"],
       tfidfRow scenarioCorpus ["dog", "sat"],
       tfidfRow scenarioCorpus ["cat", "ran"]] := rfl
  rw [h, scen_row0, scen_row1, scen_row2]

theorem scen_sims_tie :
    tfidf_sim (tfidfMatrix scenarioCorpus) =
      [cosineSimilarity [Real.log (3 / 2) / 2, Real.log (3 / 2) / 2, 0, 0]
         [Real.log (3 / 2) / 2, 0, 0, Real.log 3 / 2],
       cosineSimilarity [Real.log (3 / 2) / 2, Real.log (3 / 2) / 2, 0, 0]
         [Real.log (3 / 2) / 2, 0, 0, Real.log 3 / 2]] := by
  rw [scen_matrix]
  show [cosineSimilarity [Real.log (3 / 2) / 2, Real.log (3 / 2) / 2, 0, 0]
          [0, Real.log (3 / 2) / 2, Real.log 3 / 2, 0],
        cosineSimilarity [Real.log (3 / 2) / 2, Real.log (3 / 2) / 2, 0, 0]
          [Real.log (3 / 2) / 2, 0, 0, Real.log 3 / 2]] = _
  have hd1 : dotv [Real.log (3 / 2) / 2, Real.log (3 / 2) / 2, 0, 0]
        [0, Real.log (3 / 2) / 2, Real.log 3 / 2, 0]
      = dotv [Real.log (3 / 2) / 2, Real.log (3 / 2) / 2, 0, 0]
        [Real.log (3 / 2) / 2, 0, 0, Real.log 3 / 2] := by
    simp [dotv]
  have hd2 : dotv [0, Real.log (3 / 2) / 2, Real.log 3 / 2, 0]
        [0, Real.log (3 / 2) / 2, Real.log 3 / 2, 0]
      = dotv [Real.log (3 / 2) / 2, 0, 0, Real.log 3 / 2]
        [Real.log (3 / 2) / 2, 0, 0, Real.log 3 / 2] := by
    simp [dotv]
  have hcos : cosineSimilarity [Real.log (3 / 2) / 2, Real.log (3 / 2) / 2, 0, 0]
        [0, Real.log (3 / 2) / 2, Real.log 3 / 2, 0]
      = cosineSimilarity [Real.log (3 / 2) / 2, Real.log (3 / 2) / 2, 0, 0]
        [Real.log (3 / 2) / 2, 0, 0, Real.log 3 / 2] := by
    unfold cosineSimilarity l2norm
    rw [hd1, hd2]
  rw [hcos]

/-- C4 (code bug): on the §8 scenario corpus the notebook's retrieval code
outputs corpus positions [1, 0]: position 1 first (which happens to agree
with the claim's expected top result, document 1), then position 0 — the
query document itself — while document 2, tied for the highest score, never
appears; the tie is ordered by descending similarity-array position and the
positions are off by one with respect to document indices. -/
theorem scenario_top_output : top5_documents scenarioCorpus = [1, 0] := by
  unfold top5_documents
  rw [scen_sims_tie]
  unfold tfidf_top5_indices
  have hsort : ∀ v : ℝ, argsort [v, v] = [0, 1] := by
    intro v
    unfold argsort
    rw [show List.range [v, v].length = [0, 1] from rfl]
    simp [insertRank]
  rw [hsort]
  rfl
